import Mathlib

/-!
Shallow embedding of the `ephemerole` repository (Rust) in Lean 4.

Source files embedded:
- `src/lib.rs`: the eligibility tracker (`UserData`, `MessageMap`,
  `snowflake_to_timestamp`, `should_assign_role`).
- `src/persist.rs`: the persistence layer (`Fnv1A`, `SaveUser`, `save`, `load`).

Modelling conventions:
- Rust `u64` values are `Nat`, with an explicit `% 2 ^ 64` exactly where the
  source performs wrapping arithmetic (`wrapping_mul` in the FNV hash, the
  release-mode wrapping of `messages += 1`).  Theorems carry the `< 2 ^ 64`
  bounds that the `u64` type provides for free in Rust.
- `u64::saturating_sub` is `Nat` subtraction, which is saturating by definition.
- The `AHashMap` is modelled as an association list with unique keys
  (`MessageMap := List (Nat × UserData)`); the list order stands for the
  (arbitrary, unspecified) iteration order of the hash map.
- Byte streams (`impl std::io::Write` / `impl std::io::Read`) are `List Nat`
  (each element < 256 by construction); `read_exact` is modelled by
  `readExact`, which fails exactly when fewer bytes remain than requested.
- `io::Error` values produced by the persistence layer are modelled by the
  inductive `LoadError`, with `LoadError.kind` giving the `io::ErrorKind`
  each one carries in the source.
- The `twilight` HTTP client is not modelled, and neither is the
  `u64 → usize` conversion (always succeeding on the 64-bit targets the
  program supports).  `messages.try_reserve(len_usize)?` is modelled by
  `try_reserve_fails`: the hash map's capacity arithmetic rejects oversized
  requests deterministically (an `OutOfMemory` `io::Error`), while
  machine-dependent allocation failure for in-range requests is idealized as
  success.
-/

/-- Per-user tracked state (`UserData` in `src/lib.rs`). -/
structure UserData where
  messages : Nat
  last_message_at : Nat
  deriving Repr, DecidableEq

/-- Configuration relevant to the decision function (`AppState` in
`src/lib.rs`); the HTTP `client` field is not representable and is dropped. -/
structure AppState where
  guild : Nat
  role : Nat
  message_cooldown : Nat
  message_requirement : Nat
  deriving Repr, DecidableEq

/-- The message author (`mc.author` — only its `id` is read). -/
structure Author where
  id : Nat
  deriving Repr, DecidableEq

/-- The optional partial-member payload (`mc.member` — only `roles` is read). -/
structure PartialMember where
  roles : List Nat
  deriving Repr, DecidableEq

/-- A message-created gateway event (`MessageCreate`).  Besides the three
fields the tracker reads (`id`, `author`, `member`), the model keeps
representative payload fields the tracker ignores, including the wall-clock
`timestamp` the payload carries. -/
structure MessageCreate where
  id : Nat
  author : Author
  member : Option PartialMember
  channel_id : Nat
  content : String
  timestamp : Nat
  deriving Repr, DecidableEq

/-- The user-id → user-data map (`MessageMap = AHashMap<Id<UserMarker>, UserData>`),
modelled as an association list whose order stands for the map's iteration
order.  Keys are unique in any list that models an actual map. -/
abbrev MessageMap : Type := List (Nat × UserData)

/-- Hash-map lookup on the association-list model. -/
def lookup : MessageMap → Nat → Option UserData
  | [], _ => none
  | (k, v) :: rest, i => if k = i then some v else lookup rest i

/-- Removal via `Entry::Occupied::remove`: remove the (unique) entry with the given key. -/
def eraseKey : MessageMap → Nat → MessageMap
  | [], _ => []
  | (k, v) :: rest, i => if k = i then rest else (k, v) :: eraseKey rest i

/-- In-place mutation through `Entry::Occupied::into_mut`: replace the value
stored at the given (present) key. -/
def setVal : MessageMap → Nat → UserData → MessageMap
  | [], _, _ => []
  | (k, v) :: rest, i, nv => if k = i then (k, nv) :: rest else (k, v) :: setVal rest i nv

/-- Keys of the map model are unique: the invariant every `AHashMap` satisfies. -/
def NodupKeys (m : MessageMap) : Prop :=
  (List.map Prod.fst (α := Nat × UserData) m).Nodup

instance (m : MessageMap) : Decidable (NodupKeys m) := by
  unfold NodupKeys
  exact List.nodupDecidable _

/-- Convert a discord snowflake ID to seconds since the discord epoch
(`snowflake_to_timestamp` in `src/lib.rs`): `(id.get() >> 22) / 1000`. -/
def snowflake_to_timestamp (id : Nat) : Nat :=
  (id >>> 22) / 1000

/-- The caller-supplied "already holds the reward" signal:
`mc.member.as_ref().is_some_and(|v| v.roles.contains(&state.role))`. -/
def member_has_role (member : Option PartialMember) (role : Nat) : Bool :=
  match member with
  | some v => v.roles.contains role
  | none => false

/-- The decision entry point (`should_assign_role` in `src/lib.rs`).  The Rust
function mutates `message_map` in place and returns a `bool`; the model
returns the decision together with the updated map. -/
def should_assign_role (message_create : MessageCreate) (state : AppState)
    (message_map : MessageMap) : Bool × MessageMap :=
  if member_has_role message_create.member state.role then
    (false, message_map)
  else
    let user_id := message_create.author.id
    let message_sent_at := snowflake_to_timestamp message_create.id
    match lookup message_map user_id with
    | some entry =>
      if message_sent_at - entry.last_message_at ≥ state.message_cooldown then
        if entry.messages ≥ state.message_requirement then
          (true, eraseKey message_map user_id)
        else
          (false, setVal message_map user_id
            ⟨(entry.messages + 1) % 2 ^ 64, message_sent_at⟩)
      else
        (false, message_map)
    | none =>
      (false, (user_id, ⟨1, message_sent_at⟩) :: message_map)

/-- The FNV-1a checksum accumulator (`Fnv1A` in `src/persist.rs`). -/
structure Fnv1A where
  hash : Nat
  deriving Repr, DecidableEq

namespace Fnv1A

def FNV_PRIME : Nat := 1099511628211

def OFFSET_BASIS : Nat := 14695981039346656037

/-- One step `update`: `hash ← (hash XOR byte).wrapping_mul(FNV_PRIME)`. -/
def update (self : Fnv1A) (data : Nat) : Fnv1A :=
  ⟨(self.hash ^^^ data) * FNV_PRIME % 2 ^ 64⟩

/-- Bulk step `update_each`: `for item in data { self.update(*item) }`. -/
def update_each (self : Fnv1A) (data : List Nat) : Fnv1A :=
  match data with
  | [] => self
  | item :: rest => (self.update item).update_each rest

def finish (self : Fnv1A) : Nat :=
  self.hash

def new : Fnv1A :=
  ⟨OFFSET_BASIS⟩

end Fnv1A

/-- Little-endian encoding of a number into `k` bytes (`u64::to_le_bytes`
when `k = 8`). -/
def leBytes : Nat → Nat → List Nat
  | 0, _ => []
  | k + 1, n => n % 256 :: leBytes k (n / 256)

/-- Model of `u64::to_le_bytes`. -/
def le64 (n : Nat) : List Nat :=
  leBytes 8 n

/-- Model of `u64::from_le_bytes` on a byte list. -/
def fromLeBytes : List Nat → Nat
  | [] => 0
  | b :: rest => b + 256 * fromLeBytes rest

/-- The constant `MAGIC_BYTES` in `src/persist.rs`. -/
def MAGIC_BYTES : List Nat :=
  [0x85, 0x1E, 0x44, 0xB9, 0xA6, 0x58, 0x8F, 0x7F]

/-- The per-record codec structure (`SaveUser` in `src/persist.rs`). -/
structure SaveUser where
  id : Nat
  msgs : Nat
  last_msg : Nat
  deriving Repr, DecidableEq

namespace SaveUser

/-- Encoding `SaveUser::to_raw`: the three fields as consecutive 8-byte little-endian
integers, 24 bytes total. -/
def to_raw (self : SaveUser) : List Nat :=
  le64 self.id ++ le64 self.msgs ++ le64 self.last_msg

/-- Decoding `SaveUser::from_raw`: decode `data[0..8]`, `data[8..16]`, `data[16..24]`. -/
def from_raw (data : List Nat) : SaveUser :=
  { id := fromLeBytes (data.take 8)
    msgs := fromLeBytes ((data.drop 8).take 8)
    last_msg := fromLeBytes ((data.drop 16).take 8) }

end SaveUser

/-- Function `save` (`src/persist.rs`): serialize a `MessageMap` to bytes, feeding
every written byte through a fresh FNV-1a accumulator and appending the final
hash.  `none` models the `io::Error` raised when the entry count does not fit
in a `u64`; actual writer I/O errors are not modelled (the byte sink is a
growable buffer). -/
def save (map : MessageMap) : Option (List Nat) :=
  if map.length < 2 ^ 64 then
    let h0 := Fnv1A.new.update_each MAGIC_BYTES
    let entry_count_bytes := le64 map.length
    let h1 := h0.update_each entry_count_bytes
    let step := fun (acc : List Nat × Fnv1A) (p : Nat × UserData) =>
      let save_user_bytes :=
        (SaveUser.mk p.1 p.2.messages p.2.last_message_at).to_raw
      (acc.1 ++ save_user_bytes, acc.2.update_each save_user_bytes)
    let body := map.foldl step ([], h1)
    some (MAGIC_BYTES ++ entry_count_bytes ++ body.1 ++ le64 body.2.finish)
  else
    none

/-- The `io::Error` values `load` can produce, one constructor per distinct
error site in `src/persist.rs` (the `outOfMemory` site being the `?` on
`messages.try_reserve(len_usize)`). -/
inductive LoadError where
  | unexpectedEof
  | invalidMagic
  | invalidUserId
  | hashMismatch
  | outOfMemory
  deriving Repr, DecidableEq

/-- The `io::ErrorKind` values the source distinguishes. -/
inductive ErrKind where
  | UnexpectedEof
  | InvalidData
  | OutOfMemory
  deriving Repr, DecidableEq

/-- The `ErrorKind` each `load` error carries in the source:
`read_exact` failures are `UnexpectedEof`; bad magic, a zero user ID and a
checksum mismatch are all `InvalidData`; a failed `try_reserve` converts
through `From<TryReserveError> for io::Error` into an `OutOfMemory` error. -/
def LoadError.kind : LoadError → ErrKind
  | .unexpectedEof => .UnexpectedEof
  | .invalidMagic => .InvalidData
  | .invalidUserId => .InvalidData
  | .hashMismatch => .InvalidData
  | .outOfMemory => .OutOfMemory

/-- Model of `Read::read_exact` into an `n`-byte buffer: succeeds with the buffer and
the remaining stream iff at least `n` bytes remain. -/
def readExact (n : Nat) (s : List Nat) : Option (List Nat × List Nat) :=
  if n ≤ s.length then some (s.take n, s.drop n) else none

/-- Deterministic failure of `messages.try_reserve(len_usize)`
(`persist.rs:104`).  The map's entries are 24 bytes (`Id<UserMarker>` key,
`UserData` value), and the hash map implementation computes
`buckets = next_power_of_two(len * 8 / 7)` for `len ≥ 8`, rejecting the
request outright — before touching the allocator — when the arithmetic
overflows `usize` (`len ≥ 2^61`) or the bucket-array layout
(`24 * buckets` plus control bytes) exceeds `isize::MAX`, which happens
exactly when `buckets ≥ 2^59`, i.e. when `len > 7 * 2^55`.  In-range
requests are modelled as succeeding: whether the machine can actually
allocate them is environmental and not modelled. -/
def try_reserve_fails (len : Nat) : Bool :=
  7 * 2 ^ 55 < len

/-- Model of `HashMap::insert`: last write wins.  (Named `mapInsert` because plain
`insert` is taken by the `Insert` class.) -/
def mapInsert (m : MessageMap) (k : Nat) (v : UserData) : MessageMap :=
  (k, v) :: eraseKey m k

/-- The record-reading loop of `load` (`for _ in 0..len { ... }`): read 24
bytes, hash them, decode, reject a zero user ID, insert. -/
def loadRecords : Nat → List Nat → Fnv1A → MessageMap →
    Except LoadError (List Nat × Fnv1A × MessageMap)
  | 0, s, h, m => .ok (s, h, m)
  | n + 1, s, h, m =>
    match readExact 24 s with
    | none => .error .unexpectedEof
    | some (saveuser_buf, s') =>
      let h' := h.update_each saveuser_buf
      let user := SaveUser.from_raw saveuser_buf
      if user.id = 0 then
        .error .invalidUserId
      else
        loadRecords n s' h' (mapInsert m user.id ⟨user.msgs, user.last_msg⟩)

/-- Function `load` (`src/persist.rs`): parse magic, entry count, records and trailing
checksum, verifying the FNV-1a hash of everything read before the checksum.
The `u64 → usize` conversion cannot fail on the supported 64-bit targets;
`messages.try_reserve(len_usize)?` fails with an `OutOfMemory` `io::Error`
when its capacity arithmetic rejects the request (`try_reserve_fails`). -/
def load (s : List Nat) : Except LoadError MessageMap :=
  match readExact 8 s with
  | none => .error .unexpectedEof
  | some (magic_buf, s1) =>
    if magic_buf ≠ MAGIC_BYTES then
      .error .invalidMagic
    else
      let h0 := Fnv1A.new.update_each MAGIC_BYTES
      match readExact 8 s1 with
      | none => .error .unexpectedEof
      | some (len_buf, s2) =>
        let h1 := h0.update_each len_buf
        let len := fromLeBytes len_buf
        if try_reserve_fails len then .error .outOfMemory
        else match loadRecords len s2 h1 [] with
        | .error e => .error e
        | .ok (s3, h2, messages) =>
          match readExact 8 s3 with
          | none => .error .unexpectedEof
          | some (hash_buf, _) =>
            let provided_hash := fromLeBytes hash_buf
            let real_hash := h2.finish
            if provided_hash ≠ real_hash then
              .error .hashMismatch
            else
              .ok messages

/-- Run a list of events through `should_assign_role` in order, starting from
the given table; returns the list of decisions and the final table.  This is
the event loop of `handle_event` restricted to `MessageCreate` events. -/
def runEvents (st : AppState) (events : List MessageCreate) (m : MessageMap) :
    List Bool × MessageMap :=
  match events with
  | [] => ([], m)
  | e :: rest =>
    let r := should_assign_role e st m
    let rr := runEvents st rest r.2
    (r.1 :: rr.1, rr.2)

/-! ### Association-list map lemmas -/

theorem lookup_eq_none_of_not_mem_keys (m : MessageMap) (k : Nat)
    (h : k ∉ List.map Prod.fst m) : lookup m k = none := by
  induction m with
  | nil => rfl
  | cons p rest ih =>
    obtain ⟨a, v⟩ := p
    simp only [List.map_cons, List.mem_cons, not_or] at h
    simp only [lookup, if_neg (fun hh : a = k => h.1 hh.symm)]
    exact ih h.2

theorem lookup_eraseKey_ne (m : MessageMap) (k i : Nat) (h : i ≠ k) :
    lookup (eraseKey m k) i = lookup m i := by
  induction m with
  | nil => rfl
  | cons p rest ih =>
    obtain ⟨a, v⟩ := p
    by_cases hak : a = k
    · subst hak
      simp only [eraseKey, eq_self_iff_true, if_true, lookup,
        if_neg (fun hai : a = i => h hai.symm)]
    · simp only [eraseKey, if_neg hak, lookup]
      by_cases hai : a = i
      · simp only [if_pos hai]
      · simp only [if_neg hai, ih]

theorem lookup_eraseKey_self (m : MessageMap) (k : Nat) (h : NodupKeys m) :
    lookup (eraseKey m k) k = none := by
  induction m with
  | nil => rfl
  | cons p rest ih =>
    obtain ⟨a, v⟩ := p
    simp only [NodupKeys, List.map_cons, List.nodup_cons] at h
    by_cases hak : a = k
    · subst hak
      simp only [eraseKey, eq_self_iff_true, if_true]
      exact lookup_eq_none_of_not_mem_keys rest a h.1
    · simp only [eraseKey, if_neg hak, lookup, if_neg hak]
      exact ih h.2

theorem lookup_setVal_self (m : MessageMap) (k : Nat) (nv : UserData)
    (h : ∃ u, lookup m k = some u) :
    lookup (setVal m k nv) k = some nv := by
  induction m with
  | nil => simp [lookup] at h
  | cons p rest ih =>
    obtain ⟨a, v⟩ := p
    by_cases hak : a = k
    · simp only [setVal, if_pos hak, lookup, if_pos hak]
    · simp only [setVal, if_neg hak, lookup, if_neg hak]
      simp only [lookup, if_neg hak] at h
      exact ih h

theorem lookup_setVal_ne (m : MessageMap) (k i : Nat) (nv : UserData)
    (h : i ≠ k) : lookup (setVal m k nv) i = lookup m i := by
  induction m with
  | nil => rfl
  | cons p rest ih =>
    obtain ⟨a, v⟩ := p
    by_cases hak : a = k
    · subst hak
      simp only [setVal, eq_self_iff_true, if_true, lookup,
        if_neg (fun hai : a = i => h hai.symm)]
    · simp only [setVal, if_neg hak, lookup]
      by_cases hai : a = i
      · simp only [if_pos hai]
      · simp only [if_neg hai, ih]

theorem lookup_mapInsert_self (m : MessageMap) (k : Nat) (v : UserData) :
    lookup (mapInsert m k v) k = some v := by
  simp [mapInsert, lookup]

theorem lookup_mapInsert_ne (m : MessageMap) (k i : Nat) (v : UserData)
    (h : i ≠ k) : lookup (mapInsert m k v) i = lookup m i := by
  simp only [mapInsert, lookup, if_neg (fun hh : k = i => h hh.symm)]
  exact lookup_eraseKey_ne m k i h

theorem lookup_mem (m : MessageMap) (k : Nat) (v : UserData)
    (h : lookup m k = some v) : (k, v) ∈ m := by
  induction m with
  | nil => simp [lookup] at h
  | cons p rest ih =>
    obtain ⟨a, w⟩ := p
    by_cases hak : a = k
    · simp only [lookup, if_pos hak, Option.some.injEq] at h
      subst hak
      subst h
      exact List.mem_cons_self _ _
    · simp only [lookup, if_neg hak] at h
      exact List.mem_cons_of_mem _ (ih h)

/-! ### Byte-level and hashing lemmas -/

theorem leBytes_length (k n : Nat) : (leBytes k n).length = k := by
  induction k generalizing n with
  | zero => rfl
  | succ k ih => simp [leBytes, ih]

theorem le64_length (n : Nat) : (le64 n).length = 8 :=
  leBytes_length 8 n

theorem fromLeBytes_leBytes (k n : Nat) :
    fromLeBytes (leBytes k n) = n % 256 ^ k := by
  induction k generalizing n with
  | zero => simp [leBytes, fromLeBytes, Nat.mod_one]
  | succ k ih =>
    simp only [leBytes, fromLeBytes, ih]
    have : (256 : Nat) ^ (k + 1) = 256 * 256 ^ k := by ring
    rw [this, Nat.mod_mul]

theorem fromLeBytes_le64 (n : Nat) (h : n < 2 ^ 64) :
    fromLeBytes (le64 n) = n := by
  have h256 : (256 : Nat) ^ 8 = 2 ^ 64 := by norm_num
  rw [le64, fromLeBytes_leBytes, h256, Nat.mod_eq_of_lt h]

theorem readExact_append (n : Nat) (a b : List Nat) (h : a.length = n) :
    readExact n (a ++ b) = some (a, b) := by
  unfold readExact
  rw [if_pos (by simp [h]), List.take_left' h, List.drop_left' h]

theorem to_raw_length (u : SaveUser) : u.to_raw.length = 24 := by
  simp [SaveUser.to_raw, le64_length]

theorem from_raw_to_raw (u : SaveUser) (h1 : u.id < 2 ^ 64)
    (h2 : u.msgs < 2 ^ 64) (h3 : u.last_msg < 2 ^ 64) :
    SaveUser.from_raw u.to_raw = u := by
  have l1 : (le64 u.id).length = 8 := le64_length _
  have l2 : (le64 u.msgs).length = 8 := le64_length _
  have e8 : (le64 u.id ++ (le64 u.msgs ++ le64 u.last_msg)).drop 8 =
      le64 u.msgs ++ le64 u.last_msg := List.drop_left' l1
  have e16 : (le64 u.id ++ (le64 u.msgs ++ le64 u.last_msg)).drop 16 =
      le64 u.last_msg := by
    rw [show (16 : Nat) = 8 + 8 by norm_num, ← List.drop_drop, e8]
    exact List.drop_left' l2
  simp only [SaveUser.from_raw, SaveUser.to_raw, List.append_assoc, e8, e16]
  rw [List.take_left' l1, List.take_left' l2,
    List.take_of_length_le (by rw [le64_length])]
  rw [fromLeBytes_le64 _ h1, fromLeBytes_le64 _ h2, fromLeBytes_le64 _ h3]

theorem update_each_append (h : Fnv1A) (l1 l2 : List Nat) :
    h.update_each (l1 ++ l2) = (h.update_each l1).update_each l2 := by
  induction l1 generalizing h with
  | nil => rfl
  | cons b rest ih => simp [Fnv1A.update_each, ih]

theorem update_each_eq_foldl (h : Fnv1A) (l : List Nat) :
    h.update_each l = l.foldl Fnv1A.update h := by
  induction l generalizing h with
  | nil => rfl
  | cons b rest ih => simp [Fnv1A.update_each, List.foldl_cons, ih]

theorem update_hash_lt (h : Fnv1A) (d : Nat) : (h.update d).hash < 2 ^ 64 :=
  Nat.mod_lt _ (by norm_num)

theorem update_each_hash_lt (h : Fnv1A) (l : List Nat) (hh : h.hash < 2 ^ 64) :
    (h.update_each l).hash < 2 ^ 64 := by
  induction l generalizing h with
  | nil => exact hh
  | cons b rest ih => exact ih _ (update_hash_lt h b)

/-! ### Encoding of record sequences -/

/-- The bytes `save` writes for one map entry. -/
def encUser (p : Nat × UserData) : List Nat :=
  (SaveUser.mk p.1 p.2.messages p.2.last_message_at).to_raw

/-- The bytes `save` writes for the whole record section, in iteration order. -/
def encRecords (m : MessageMap) : List Nat :=
  (m.map encUser).flatten

theorem encRecords_nil : encRecords [] = [] := rfl

theorem encRecords_cons (p : Nat × UserData) (rest : MessageMap) :
    encRecords (p :: rest) = encUser p ++ encRecords rest := by
  simp [encRecords]

/-- A record entry is valid when its identity is non-zero and all of its
fields fit in a `u64` (the bounds the Rust types guarantee). -/
def ValidEntry (p : Nat × UserData) : Prop :=
  p.1 ≠ 0 ∧ p.1 < 2 ^ 64 ∧ p.2.messages < 2 ^ 64 ∧ p.2.last_message_at < 2 ^ 64

/-- The record-writing loop of `save` appends the encoded records and hashes
exactly those bytes. -/
theorem save_foldl (m : MessageMap) (acc : List Nat) (h : Fnv1A) :
    m.foldl (fun (acc : List Nat × Fnv1A) (p : Nat × UserData) =>
        let save_user_bytes :=
          (SaveUser.mk p.1 p.2.messages p.2.last_message_at).to_raw
        (acc.1 ++ save_user_bytes, acc.2.update_each save_user_bytes)) (acc, h) =
      (acc ++ encRecords m, h.update_each (encRecords m)) := by
  induction m generalizing acc h with
  | nil => simp [encRecords_nil, Fnv1A.update_each]
  | cons p rest ih =>
    simp only [List.foldl_cons, ih, encRecords_cons, update_each_append,
      List.append_assoc]
    rfl

/-- The record-reading loop of `load`, run over the encoding of valid records
followed by `tail`, consumes exactly those records: it hashes their bytes and
inserts each decoded record, then continues on `tail` with the leftover
iteration count. -/
theorem loadRecords_spec (recs : MessageMap) (k : Nat) (tail : List Nat)
    (h : Fnv1A) (m : MessageMap)
    (hvalid : ∀ p ∈ recs, ValidEntry p) :
    loadRecords (recs.length + k) (encRecords recs ++ tail) h m =
      loadRecords k tail (h.update_each (encRecords recs))
        (recs.foldl (fun mm p => mapInsert mm p.1 p.2) m) := by
  induction recs generalizing h m with
  | nil => simp [encRecords_nil, Fnv1A.update_each]
  | cons p rest ih =>
    have hv : ValidEntry p := hvalid p (List.mem_cons_self _ _)
    have hlen : (p :: rest).length + k = (rest.length + k) + 1 := by
      simp [List.length_cons]
      omega
    rw [hlen, encRecords_cons, List.append_assoc]
    have henc : (encUser p).length = 24 := to_raw_length _
    simp only [loadRecords, readExact_append 24 _ _ henc]
    have hdec : SaveUser.from_raw (encUser p) =
        SaveUser.mk p.1 p.2.messages p.2.last_message_at :=
      from_raw_to_raw _ hv.2.1 hv.2.2.1 hv.2.2.2
    rw [hdec]
    simp only [if_neg hv.1]
    rw [ih _ _ (fun q hq => hvalid q (List.mem_cons_of_mem _ hq))]
    rw [update_each_append, List.foldl_cons]

theorem lookup_foldl_mapInsert_not_mem (recs : MessageMap) (acc : MessageMap)
    (k : Nat) (h : k ∉ recs.map Prod.fst) :
    lookup (recs.foldl (fun mm p => mapInsert mm p.1 p.2) acc) k =
      lookup acc k := by
  induction recs generalizing acc with
  | nil => rfl
  | cons p rest ih =>
    simp only [List.map_cons, List.mem_cons, not_or] at h
    rw [List.foldl_cons, ih _ h.2, lookup_mapInsert_ne _ _ _ _ h.1]

theorem lookup_foldl_mapInsert_mem (recs : MessageMap) (acc : MessageMap)
    (k : Nat) (v : UserData) (hnd : NodupKeys recs) (hmem : (k, v) ∈ recs) :
    lookup (recs.foldl (fun mm p => mapInsert mm p.1 p.2) acc) k = some v := by
  induction recs generalizing acc with
  | nil => simp at hmem
  | cons p rest ih =>
    simp only [NodupKeys, List.map_cons, List.nodup_cons] at hnd
    rw [List.foldl_cons]
    rcases List.mem_cons.mp hmem with hp | hrest
    · subst hp
      rw [lookup_foldl_mapInsert_not_mem _ _ _ hnd.1]
      exact lookup_mapInsert_self _ _ _
    · exact ih _ hnd.2 hrest

/-! ### Claims about the eligibility tracker -/

/-- C6: a message event whose member payload shows the author already holding
the reward role makes `should_assign_role` return "no grant" and leave the
table completely unchanged, whatever the event's identity, timestamp, or the
table's contents. -/
theorem C6_flagged_event_never_mutates (mc : MessageCreate) (st : AppState)
    (m : MessageMap) (mem : PartialMember) (hmem : mc.member = some mem)
    (hrole : st.role ∈ mem.roles) :
    should_assign_role mc st m = (false, m) := by
  have hflag : member_has_role mc.member st.role = true := by
    rw [hmem]
    simpa [member_has_role] using hrole
  simp [should_assign_role, hflag]

/-- Witness for C6 at a concrete flagged event. -/
theorem C6_witness :
    should_assign_role ⟨1, ⟨2⟩, some ⟨[5, 8]⟩, 3, "x", 4⟩ ⟨0, 5, 60, 60⟩
        [(2, ⟨9, 9⟩)] =
      (false, [(2, ⟨9, 9⟩)]) :=
  C6_flagged_event_never_mutates ⟨1, ⟨2⟩, some ⟨[5, 8]⟩, 3, "x", 4⟩
    ⟨0, 5, 60, 60⟩ [(2, ⟨9, 9⟩)] ⟨[5, 8]⟩ rfl (by decide)

/-- C5: if the stored `last_message_at` is strictly later than the event
time, the saturating subtraction clamps the difference to zero, so with a
positive cooldown the function returns "no grant" and leaves the whole table
(hence the stored record) unchanged. -/
theorem C5_future_timestamp_clamps_to_zero (mc : MessageCreate)
    (st : AppState) (m : MessageMap) (u : UserData)
    (hu : lookup m mc.author.id = some u)
    (hlt : snowflake_to_timestamp mc.id < u.last_message_at)
    (hcd : 0 < st.message_cooldown) :
    snowflake_to_timestamp mc.id - u.last_message_at = 0 ∧
    should_assign_role mc st m = (false, m) := by
  have hsat : snowflake_to_timestamp mc.id - u.last_message_at = 0 :=
    Nat.sub_eq_zero_of_le (le_of_lt hlt)
  refine ⟨hsat, ?_⟩
  by_cases hflag : member_has_role mc.member st.role = true
  · simp [should_assign_role, hflag]
  · simp only [should_assign_role, Bool.not_eq_true] at *
    simp only [hflag, Bool.false_eq_true, if_false, hu, hsat]
    rw [if_neg (by omega)]

/-- Witness for C5 at a concrete event whose stored time is in the future. -/
theorem C5_witness :
    snowflake_to_timestamp 4194304000 - 100 = 0 ∧
    should_assign_role ⟨4194304000, ⟨2⟩, none, 3, "x", 4⟩ ⟨0, 5, 60, 60⟩
        [(2, ⟨3, 100⟩)] =
      (false, [(2, ⟨3, 100⟩)]) :=
  C5_future_timestamp_clamps_to_zero ⟨4194304000, ⟨2⟩, none, 3, "x", 4⟩
    ⟨0, 5, 60, 60⟩ [(2, ⟨3, 100⟩)] ⟨3, 100⟩ (by decide) (by decide) (by decide)

/-- C10: the decision is a pure function of the message's `id`, `author.id`
and `member` payload and of the `role` / `message_cooldown` /
`message_requirement` configuration fields — other message payload fields
(channel, content, the wall-clock timestamp) and the `guild` field play no
part — and the event time it uses is `(id >> 22) / 1000`, derived from the
snowflake, not from a clock. -/
theorem C10_decision_deterministic (mc mc2 : MessageCreate)
    (st st2 : AppState) (m : MessageMap) (hid : mc2.id = mc.id)
    (hauthor : mc2.author.id = mc.author.id) (hmember : mc2.member = mc.member)
    (hrole : st2.role = st.role)
    (hcd : st2.message_cooldown = st.message_cooldown)
    (hreq : st2.message_requirement = st.message_requirement) :
    should_assign_role mc2 st2 m = should_assign_role mc st m ∧
    snowflake_to_timestamp mc.id = mc.id >>> 22 / 1000 := by
  constructor
  · unfold should_assign_role
    rw [hid, hauthor, hmember, hrole, hcd, hreq]
  · rfl

/-- Witness for C10: two events equal in the decision-relevant fields but
different in channel, content, wall-clock timestamp and guild. -/
theorem C10_witness :
    should_assign_role ⟨4194304000, ⟨7⟩, none, 9, "b", 123⟩ ⟨99, 5, 60, 60⟩
        [(7, ⟨1, 0⟩)] =
      should_assign_role ⟨4194304000, ⟨7⟩, none, 1, "a", 0⟩ ⟨1, 5, 60, 60⟩
        [(7, ⟨1, 0⟩)] ∧
    snowflake_to_timestamp 4194304000 = 4194304000 >>> 22 / 1000 :=
  C10_decision_deterministic ⟨4194304000, ⟨7⟩, none, 1, "a", 0⟩
    ⟨4194304000, ⟨7⟩, none, 9, "b", 123⟩ ⟨1, 5, 60, 60⟩ ⟨99, 5, 60, 60⟩
    [(7, ⟨1, 0⟩)] rfl rfl rfl rfl rfl rfl

/-- C1: for an unflagged event, "grant" is returned iff the author has a
stored record whose saturating age is at least the cooldown and whose count
is at least the requirement; and a grant deletes the author's record, so the
very next event for the same author finds no record and returns "no grant". -/
theorem C1_grant_iff_threshold_and_reset (mc : MessageCreate) (st : AppState)
    (m : MessageMap) (hflag : member_has_role mc.member st.role = false)
    (hnd : NodupKeys m) :
    ((should_assign_role mc st m).1 = true ↔
      ∃ u, lookup m mc.author.id = some u ∧
        st.message_cooldown ≤
          snowflake_to_timestamp mc.id - u.last_message_at ∧
        st.message_requirement ≤ u.messages) ∧
    ((should_assign_role mc st m).1 = true →
      lookup (should_assign_role mc st m).2 mc.author.id = none ∧
      ∀ mc2 : MessageCreate, mc2.author.id = mc.author.id →
        (should_assign_role mc2 st (should_assign_role mc st m).2).1 = false) := by
  simp only [should_assign_role, hflag, Bool.false_eq_true, if_false]
  cases hlook : lookup m mc.author.id with
  | none =>
    simp only [hlook]
    constructor
    · simp
    · intro h
      simp at h
  | some u =>
    simp only [hlook]
    by_cases hcd :
        st.message_cooldown ≤ snowflake_to_timestamp mc.id - u.last_message_at
    · by_cases hreq : st.message_requirement ≤ u.messages
      · simp only [ge_iff_le, if_pos hcd, if_pos hreq]
        constructor
        · constructor
          · intro _
            exact ⟨u, rfl, hcd, hreq⟩
          · intro _
            trivial
        · intro _
          have herase : lookup (eraseKey m mc.author.id) mc.author.id = none :=
            lookup_eraseKey_self m mc.author.id hnd
          refine ⟨herase, ?_⟩
          intro mc2 hmc2
          by_cases hflag2 : member_has_role mc2.member st.role = true
          · simp [should_assign_role, hflag2]
          · simp only [Bool.not_eq_true] at hflag2
            simp [should_assign_role, hflag2, hmc2, herase]
      · simp only [ge_iff_le, if_pos hcd, if_neg hreq]
        constructor
        · constructor
          · intro h
            simp at h
          · rintro ⟨u2, hu2, -, hreq2⟩
            cases hu2
            exact absurd hreq2 hreq
        · intro h
          simp at h
    · simp only [ge_iff_le, if_neg hcd]
      constructor
      · constructor
        · intro h
          simp at h
        · rintro ⟨u2, hu2, hcd2, -⟩
          cases hu2
          exact absurd hcd2 hcd
      · intro h
        simp at h

/-- Witness for C1: a record at the threshold with the cooldown elapsed. -/
theorem C1_witness :
    ((should_assign_role ⟨4194304000000, ⟨2⟩, none, 3, "x", 4⟩
        ⟨0, 5, 60, 2⟩ [(2, ⟨2, 0⟩)]).1 = true ↔
      ∃ u, lookup [(2, ⟨2, 0⟩)] 2 = some u ∧
        60 ≤ snowflake_to_timestamp 4194304000000 - u.last_message_at ∧
        2 ≤ u.messages) ∧
    ((should_assign_role ⟨4194304000000, ⟨2⟩, none, 3, "x", 4⟩
        ⟨0, 5, 60, 2⟩ [(2, ⟨2, 0⟩)]).1 = true →
      lookup (should_assign_role ⟨4194304000000, ⟨2⟩, none, 3, "x", 4⟩
        ⟨0, 5, 60, 2⟩ [(2, ⟨2, 0⟩)]).2 2 = none ∧
      ∀ mc2 : MessageCreate, mc2.author.id = 2 →
        (should_assign_role mc2 ⟨0, 5, 60, 2⟩
          (should_assign_role ⟨4194304000000, ⟨2⟩, none, 3, "x", 4⟩
            ⟨0, 5, 60, 2⟩ [(2, ⟨2, 0⟩)]).2).1 = false) :=
  C1_grant_iff_threshold_and_reset ⟨4194304000000, ⟨2⟩, none, 3, "x", 4⟩
    ⟨0, 5, 60, 2⟩ [(2, ⟨2, 0⟩)] (by decide) (by decide)

/-- The four possible per-key effects of one `should_assign_role` call: the
key's binding is untouched, its count is incremented by exactly one (with the
timestamp refreshed), a fresh record with count 1 is inserted, or the record
is deleted outright. -/
def EffectCases (mc : MessageCreate) (st : AppState) (m : MessageMap)
    (k : Nat) : Prop :=
  lookup (should_assign_role mc st m).2 k = lookup m k ∨
  (∃ u, lookup m k = some u ∧ u.messages < st.message_requirement ∧
    lookup (should_assign_role mc st m).2 k =
      some ⟨u.messages + 1, snowflake_to_timestamp mc.id⟩) ∨
  (lookup m k = none ∧
    lookup (should_assign_role mc st m).2 k =
      some ⟨1, snowflake_to_timestamp mc.id⟩) ∨
  (∃ u, lookup m k = some u ∧ st.message_requirement ≤ u.messages ∧
    lookup (should_assign_role mc st m).2 k = none)

theorem should_assign_role_effect (mc : MessageCreate) (st : AppState)
    (m : MessageMap) (hnd : NodupKeys m)
    (hreq : st.message_requirement < 2 ^ 64) (k : Nat) :
    EffectCases mc st m k := by
  unfold EffectCases
  by_cases hflag : member_has_role mc.member st.role = true
  · exact Or.inl (by simp [should_assign_role, hflag])
  · simp only [Bool.not_eq_true] at hflag
    cases hlook : lookup m mc.author.id with
    | none =>
      have hm2 : (should_assign_role mc st m).2 =
          (mc.author.id, ⟨1, snowflake_to_timestamp mc.id⟩) :: m := by
        simp [should_assign_role, hflag, hlook]
      by_cases hk : k = mc.author.id
      · subst hk
        right; right; left
        rw [hm2]
        exact ⟨hlook, by simp [lookup]⟩
      · left
        rw [hm2]
        simp only [lookup, if_neg (fun h : mc.author.id = k => hk h.symm)]
    | some u =>
      by_cases hcd : st.message_cooldown ≤
          snowflake_to_timestamp mc.id - u.last_message_at
      · by_cases hr : st.message_requirement ≤ u.messages
        · have hm2 : (should_assign_role mc st m).2 = eraseKey m mc.author.id := by
            simp [should_assign_role, hflag, hlook, hcd, hr]
          by_cases hk : k = mc.author.id
          · subst hk
            right; right; right
            rw [hm2]
            exact ⟨u, hlook, hr, lookup_eraseKey_self m _ hnd⟩
          · left
            rw [hm2]
            exact lookup_eraseKey_ne m _ _ hk
        · have hlt : u.messages < st.message_requirement := Nat.lt_of_not_le hr
          have hmod : (u.messages + 1) % 18446744073709551616 = u.messages + 1 :=
            Nat.mod_eq_of_lt (Nat.lt_of_le_of_lt hlt hreq)
          have hm2 : (should_assign_role mc st m).2 =
              setVal m mc.author.id
                ⟨u.messages + 1, snowflake_to_timestamp mc.id⟩ := by
            simp [should_assign_role, hflag, hlook, hcd, hr, hmod]
          by_cases hk : k = mc.author.id
          · subst hk
            right; left
            rw [hm2]
            exact ⟨u, hlook, hlt, lookup_setVal_self m _ _ ⟨u, hlook⟩⟩
          · left
            rw [hm2]
            exact lookup_setVal_ne m _ _ _ hk
      · left
        have hm2 : (should_assign_role mc st m).2 = m := by
          simp [should_assign_role, hflag, hlook, hcd]
        rw [hm2]

/-- C9: across one `should_assign_role` call, a stored messages count that
exists both before and after the call never decreases; every call's per-key
effect is one of: leave unchanged, increment by exactly one, insert fresh
with count 1, or delete the record. -/
theorem C9_count_never_decremented (mc : MessageCreate) (st : AppState)
    (m : MessageMap) (hnd : NodupKeys m)
    (hreq : st.message_requirement < 2 ^ 64) :
    (∀ k u u2, lookup m k = some u →
      lookup (should_assign_role mc st m).2 k = some u2 →
      u.messages ≤ u2.messages) ∧
    (∀ k, EffectCases mc st m k) := by
  have heff := should_assign_role_effect mc st m hnd hreq
  refine ⟨?_, heff⟩
  intro k u u2 hu hu2
  rcases heff k with h | ⟨w, hw, _, hw2⟩ | ⟨hnone, -⟩ | ⟨w, hw, -, hwnone⟩
  · rw [h, hu] at hu2
    cases hu2
    exact le_refl _
  · rw [hu] at hw
    cases hw
    rw [hw2] at hu2
    cases hu2
    simp
  · rw [hu] at hnone
    simp at hnone
  · rw [hwnone] at hu2
    simp at hu2

/-- Witness for C9 on a concrete one-entry table. -/
theorem C9_witness :
    (∀ k u u2, lookup [(2, ⟨1, 0⟩)] k = some u →
      lookup (should_assign_role ⟨4194304000000, ⟨2⟩, none, 3, "x", 4⟩
        ⟨0, 5, 60, 3⟩ [(2, ⟨1, 0⟩)]).2 k = some u2 →
      u.messages ≤ u2.messages) ∧
    (∀ k, EffectCases ⟨4194304000000, ⟨2⟩, none, 3, "x", 4⟩ ⟨0, 5, 60, 3⟩
      [(2, ⟨1, 0⟩)] k) :=
  C9_count_never_decremented ⟨4194304000000, ⟨2⟩, none, 3, "x", 4⟩
    ⟨0, 5, 60, 3⟩ [(2, ⟨1, 0⟩)] (by decide) (by decide)

/-- Counterexample to C4 as stated: with `message_requirement = 60` and
`message_cooldown = 60`, a fresh identity receiving one event every 60
seconds from `t = 0` gets "no grant" on all of the first 60 counted events —
including the 60th — and its record is still in the table afterwards, with
the stored count at 60. -/
theorem C4_counterexample :
    runEvents ⟨1, 99, 60, 60⟩ ((List.range 60).map (fun i =>
        ⟨60 * i * 1000 * 2 ^ 22, ⟨42⟩, none, 0, "", 0⟩)) [] =
      (List.replicate 60 false, [(42, ⟨60, 3540⟩)]) := by
  decide

/-- C4 amended: in the same scenario the decision function only compares the
stored count against the requirement before incrementing it, so the 60th
counted event leaves the count at 60 and returns "no grant"; it is the 61st
counted event that returns "grant" and removes the identity's record. -/
theorem C4_61st_counted_event_grants :
    runEvents ⟨1, 99, 60, 60⟩ ((List.range 61).map (fun i =>
        ⟨60 * i * 1000 * 2 ^ 22, ⟨42⟩, none, 0, "", 0⟩)) [] =
      (List.replicate 60 false ++ [true], []) := by
  decide

/-! ### Claims about the persistence layer -/

/-- C8: a fresh FNV-1a accumulator starts at the offset basis
`14695981039346656037` (so finishing immediately yields that constant);
`update` maps the accumulator to `(accumulator XOR byte) * 1099511628211`
under wrapping 64-bit multiplication; and `update_each` agrees bit-for-bit
with folding `update` over the bytes one at a time, in order (equivalently,
it distributes over concatenation). -/
theorem C8_fnv1a_streaming :
    Fnv1A.new.finish = 14695981039346656037 ∧
    (∀ h d : Nat, (Fnv1A.mk h).update d =
      ⟨(h ^^^ d) * 1099511628211 % 2 ^ 64⟩) ∧
    (∀ (a : Fnv1A) (bs : List Nat), a.update_each bs = bs.foldl Fnv1A.update a) ∧
    (∀ (a : Fnv1A) (l1 l2 : List Nat),
      a.update_each (l1 ++ l2) = (a.update_each l1).update_each l2) :=
  ⟨rfl, fun _ _ => rfl, fun a bs => update_each_eq_foldl a bs,
    fun a l1 l2 => update_each_append a l1 l2⟩

instance (p : Nat × UserData) : Decidable (ValidEntry p) := by
  unfold ValidEntry
  infer_instance

/-- The checksum `save` appends: the FNV-1a hash of the magic, the entry
count and the record bytes, in stream order. -/
def saveHash (m : MessageMap) : Nat :=
  (((Fnv1A.new.update_each MAGIC_BYTES).update_each
    (le64 m.length)).update_each (encRecords m)).finish

/-- `save` produces magic, count, records and checksum, in that order. -/
theorem save_eq (m : MessageMap) (hlen : m.length < 2 ^ 64) :
    save m = some (MAGIC_BYTES ++ le64 m.length ++ encRecords m ++
      le64 (saveHash m)) := by
  unfold save
  rw [if_pos hlen]
  simp only [save_foldl]
  simp [saveHash]

/-- The tail of the `load` computation once the magic has been checked and
the entry count `n` decoded: run the record loop, then read and verify the
trailing checksum. -/
def loadAfterHeader (n : Nat) (rest : List Nat) : Except LoadError MessageMap :=
  if try_reserve_fails n then .error .outOfMemory
  else
    match loadRecords n rest
        ((Fnv1A.new.update_each MAGIC_BYTES).update_each (le64 n)) [] with
    | .error e => .error e
    | .ok (s3, h2, messages) =>
      match readExact 8 s3 with
      | none => .error .unexpectedEof
      | some (hash_buf, _) =>
        if fromLeBytes hash_buf ≠ h2.finish then .error .hashMismatch
        else .ok messages

theorem load_header (n : Nat) (rest : List Nat) (hn : n < 2 ^ 64) :
    load (MAGIC_BYTES ++ le64 n ++ rest) = loadAfterHeader n rest := by
  unfold load loadAfterHeader
  rw [List.append_assoc]
  rw [readExact_append 8 MAGIC_BYTES _ (by rfl)]
  simp only [ne_eq, not_true_eq_false, if_neg (fun h : ¬MAGIC_BYTES = MAGIC_BYTES => h rfl)]
  rw [readExact_append 8 (le64 n) _ (le64_length n)]
  simp [fromLeBytes_le64 n hn]

theorem readExact_exact (n : Nat) (s : List Nat) (h : s.length = n) :
    readExact n s = some (s, []) := by
  unfold readExact
  rw [if_pos (le_of_eq h.symm), List.take_of_length_le (le_of_eq h),
    List.drop_eq_nil_of_le (le_of_eq h)]

theorem lookup_eq_none_iff_not_mem (m : MessageMap) (k : Nat) :
    lookup m k = none ↔ k ∉ List.map Prod.fst m := by
  induction m with
  | nil => simp [lookup]
  | cons p rest ih =>
    obtain ⟨a, v⟩ := p
    by_cases hak : a = k
    · subst hak
      simp [lookup]
    · simp only [lookup, if_neg hak, ih, List.map_cons, List.mem_cons, not_or]
      have hka : ¬k = a := fun h => hak h.symm
      tauto

theorem saveHash_lt (m : MessageMap) : saveHash m < 2 ^ 64 := by
  unfold saveHash Fnv1A.finish
  exact update_each_hash_lt _ _ (update_each_hash_lt _ _
    (update_each_hash_lt _ _ (by norm_num [Fnv1A.new, Fnv1A.OFFSET_BASIS])))

/-- C2: saving any tracking table with non-zero (u64) identities and then
loading the exact byte stream `save` produced succeeds and returns a table
with the same identity→state bindings, whatever iteration order (modelled by
the list order) `save` used over the map.  The length bound is the largest
reservation the map's capacity arithmetic accepts (`try_reserve_fails`); no
in-memory table can exceed it, since building one performs the same
reservation. -/
theorem C2_save_load_round_trip (m : MessageMap) (hnd : NodupKeys m)
    (hlen : m.length ≤ 7 * 2 ^ 55) (hvalid : ∀ p ∈ m, ValidEntry p) :
    ∃ bs m2, save m = some bs ∧ load bs = .ok m2 ∧
      ∀ k, lookup m2 k = lookup m k := by
  have hlen64 : m.length < 2 ^ 64 := Nat.lt_of_le_of_lt hlen (by norm_num)
  have hres : try_reserve_fails m.length = false := by
    unfold try_reserve_fails
    exact decide_eq_false (Nat.not_lt.mpr hlen)
  have hsave := save_eq m hlen64
  refine ⟨_, m.foldl (fun mm p => mapInsert mm p.1 p.2) [], hsave, ?_, ?_⟩
  · rw [List.append_assoc (MAGIC_BYTES ++ le64 m.length) (encRecords m)
      (le64 (saveHash m))]
    rw [load_header _ _ hlen64]
    unfold loadAfterHeader
    rw [hres]
    simp only [Bool.false_eq_true, if_false]
    have hrecs := loadRecords_spec m 0 (le64 (saveHash m))
      ((Fnv1A.new.update_each MAGIC_BYTES).update_each (le64 m.length)) []
      hvalid
    rw [Nat.add_zero] at hrecs
    rw [hrecs]
    simp only [loadRecords]
    rw [readExact_exact 8 _ (le64_length _)]
    simp only [saveHash, Fnv1A.finish] at *
    simp [fromLeBytes_le64 _ (saveHash_lt m)]
    exact fromLeBytes_le64 _ (saveHash_lt m)
  · intro k
    cases hk : lookup m k with
    | none =>
      rw [lookup_foldl_mapInsert_not_mem m [] k
        ((lookup_eq_none_iff_not_mem m k).mp hk)]
      rfl
    | some v =>
      exact lookup_foldl_mapInsert_mem m [] k v hnd (lookup_mem m k v hk)

/-- Witness for C2 on a concrete two-entry table. -/
theorem C2_witness :
    ∃ bs m2, save [(10, ⟨128, 241215⟩), (3, ⟨1, 2⟩)] = some bs ∧
      load bs = .ok m2 ∧
      ∀ k, lookup m2 k = lookup [(10, ⟨128, 241215⟩), (3, ⟨1, 2⟩)] k :=
  C2_save_load_round_trip [(10, ⟨128, 241215⟩), (3, ⟨1, 2⟩)] (by decide)
    (by decide) (by decide)

/-- The record loop rejects the stream as soon as it decodes a record whose
identity field is zero. -/
theorem loadRecords_zero_id (recs : MessageMap) (k : Nat) (tail : List Nat)
    (h : Fnv1A) (m : MessageMap)
    (hb : ∀ p ∈ recs, p.1 < 2 ^ 64 ∧ p.2.messages < 2 ^ 64 ∧
      p.2.last_message_at < 2 ^ 64)
    (hz : ∃ p ∈ recs, p.1 = 0) :
    loadRecords (recs.length + k) (encRecords recs ++ tail) h m =
      .error .invalidUserId := by
  induction recs generalizing h m with
  | nil => simp at hz
  | cons p rest ih =>
    have hv := hb p (List.mem_cons_self _ _)
    have hlen : (p :: rest).length + k = (rest.length + k) + 1 := by
      simp [List.length_cons]
      omega
    rw [hlen, encRecords_cons, List.append_assoc]
    have henc : (encUser p).length = 24 := to_raw_length _
    simp only [loadRecords, readExact_append 24 _ _ henc]
    have hdec : SaveUser.from_raw (encUser p) =
        SaveUser.mk p.1 p.2.messages p.2.last_message_at :=
      from_raw_to_raw _ hv.1 hv.2.1 hv.2.2
    rw [hdec]
    by_cases hid : p.1 = 0
    · simp [hid]
    · simp only [if_neg hid]
      rcases hz with ⟨q, hq, hq0⟩
      rcases List.mem_cons.mp hq with rfl | hqrest
      · exact absurd hq0 hid
      · exact ih _ _ (fun r hr => hb r (List.mem_cons_of_mem _ hr))
          ⟨q, hqrest, hq0⟩

/-- C7: a byte stream with the correct magic and a declared entry count
matching its records (and small enough that the up-front capacity
reservation is accepted) fails to load with the invalid-identity error (an
invalid-data error) as soon as some record's 8-byte identity field decodes
to zero, whatever the other fields and the trailing bytes (including a
well-formed checksum) contain. -/
theorem C7_zero_identity_rejected (recs : MessageMap) (rest : List Nat)
    (hb : ∀ p ∈ recs, p.1 < 2 ^ 64 ∧ p.2.messages < 2 ^ 64 ∧
      p.2.last_message_at < 2 ^ 64)
    (hlen : recs.length ≤ 7 * 2 ^ 55) (hz : ∃ p ∈ recs, p.1 = 0) :
    load (MAGIC_BYTES ++ le64 recs.length ++ (encRecords recs ++ rest)) =
      .error .invalidUserId ∧
    LoadError.kind .invalidUserId = .InvalidData := by
  refine ⟨?_, rfl⟩
  have hlen64 : recs.length < 2 ^ 64 := Nat.lt_of_le_of_lt hlen (by norm_num)
  have hres : try_reserve_fails recs.length = false := by
    unfold try_reserve_fails
    exact decide_eq_false (Nat.not_lt.mpr hlen)
  rw [load_header _ _ hlen64]
  unfold loadAfterHeader
  rw [hres]
  simp only [Bool.false_eq_true, if_false]
  have hloop := loadRecords_zero_id recs 0 rest
    ((Fnv1A.new.update_each MAGIC_BYTES).update_each (le64 recs.length)) []
    hb hz
  rw [Nat.add_zero] at hloop
  rw [hloop]

/-- Witness for C7: a single zero-identity record with an otherwise
well-formed stream, including the correct checksum. -/
theorem C7_witness :
    load (MAGIC_BYTES ++ le64 (List.length [((0 : Nat), (⟨1, 2⟩ : UserData))]) ++
        (encRecords [(0, ⟨1, 2⟩)] ++
          le64 (saveHash [(0, ⟨1, 2⟩)]))) =
      .error .invalidUserId ∧
    LoadError.kind .invalidUserId = .InvalidData :=
  C7_zero_identity_rejected [(0, ⟨1, 2⟩)] (le64 (saveHash [(0, ⟨1, 2⟩)]))
    (by decide) (by decide) (by decide)

theorem encRecords_append (a b : MessageMap) :
    encRecords (a ++ b) = encRecords a ++ encRecords b := by
  simp [encRecords]

/-- Counterexample to C3 as stated: there is a stream produced by `save` on
which replacing the declared entry count by a smaller value does NOT produce
a checksum-mismatch failure — `load` succeeds and returns a (truncated)
table, because the 8 bytes consumed as the checksum field are the identity
field of the first dropped record, and that identity was chosen equal to the
FNV-1a hash of the tampered prefix. -/
theorem C3_counterexample :
    (save [(9619768215524937613, ⟨5, 7⟩)]).map
        (fun bs => load (bs.take 8 ++ le64 0 ++ bs.drop 16)) =
      some (.ok []) := by
  rfl

/-- C3 amended: on a stream produced by `save`, replacing the declared entry
count by a larger value never yields a table: while the new count stays
within the capacity reservation's limit (`7 * 2^55`), `load` fails with the
unexpected-end-of-data error; past that limit the `try_reserve` capacity
arithmetic fails deterministically first and `load` fails with an
out-of-memory error.  Replacing the count by a smaller value makes `load`
fail with the checksum-mismatch (invalid data) error *provided* the identity
of the first record beyond the new count differs from the FNV-1a hash of the
tampered prefix — in the astronomically unlikely colliding case `load`
instead succeeds with a truncated table (see the counterexample). -/
theorem C3_length_tampering (m : MessageMap) (bs : List Nat) (n2 : Nat)
    (hvalid : ∀ p ∈ m, ValidEntry p) (hlen : m.length ≤ 7 * 2 ^ 55)
    (hsave : save m = some bs) :
    (m.length < n2 → n2 ≤ 7 * 2 ^ 55 →
      load (bs.take 8 ++ le64 n2 ++ bs.drop 16) = .error .unexpectedEof) ∧
    (7 * 2 ^ 55 < n2 → n2 < 2 ^ 64 →
      load (bs.take 8 ++ le64 n2 ++ bs.drop 16) = .error .outOfMemory) ∧
    (∀ p rest2, m.drop n2 = p :: rest2 →
      p.1 ≠ (((Fnv1A.new.update_each MAGIC_BYTES).update_each
          (le64 n2)).update_each (encRecords (m.take n2))).finish →
      load (bs.take 8 ++ le64 n2 ++ bs.drop 16) = .error .hashMismatch) := by
  have hlen64 : m.length < 2 ^ 64 := Nat.lt_of_le_of_lt hlen (by norm_num)
  have hsave2 := save_eq m hlen64
  have hbs : bs = MAGIC_BYTES ++ le64 m.length ++ encRecords m ++
      le64 (saveHash m) := by
    rw [hsave] at hsave2
    exact Option.some.inj hsave2
  subst hbs
  have hassoc : MAGIC_BYTES ++ le64 m.length ++ encRecords m ++
      le64 (saveHash m) =
      (MAGIC_BYTES ++ le64 m.length) ++
        (encRecords m ++ le64 (saveHash m)) := by
    simp [List.append_assoc]
  have hlen16 : (MAGIC_BYTES ++ le64 m.length).length = 16 := by
    simp [le64_length, MAGIC_BYTES]
  have htake8 : (MAGIC_BYTES ++ le64 m.length ++ encRecords m ++
      le64 (saveHash m)).take 8 = MAGIC_BYTES := by
    rw [hassoc, List.append_assoc MAGIC_BYTES]
    exact List.take_left' rfl
  have hdrop16 : (MAGIC_BYTES ++ le64 m.length ++ encRecords m ++
      le64 (saveHash m)).drop 16 = encRecords m ++ le64 (saveHash m) := by
    rw [hassoc]
    exact List.drop_left' hlen16
  rw [htake8, hdrop16]
  refine ⟨?_, ?_, ?_⟩
  · intro hgt hn2r
    have hn2 : n2 < 2 ^ 64 := Nat.lt_of_le_of_lt hn2r (by norm_num)
    have hres : try_reserve_fails n2 = false := by
      unfold try_reserve_fails
      exact decide_eq_false (Nat.not_lt.mpr hn2r)
    rw [load_header _ _ hn2]
    unfold loadAfterHeader
    rw [hres]
    simp only [Bool.false_eq_true, if_false]
    have hrecs := loadRecords_spec m (n2 - m.length) (le64 (saveHash m))
      ((Fnv1A.new.update_each MAGIC_BYTES).update_each (le64 n2)) [] hvalid
    rw [show m.length + (n2 - m.length) = n2 from by omega] at hrecs
    rw [hrecs]
    obtain ⟨j, hj⟩ : ∃ j, n2 - m.length = j + 1 :=
      ⟨n2 - m.length - 1, by omega⟩
    rw [hj]
    simp [loadRecords, readExact, le64_length]
  · intro hr hn2
    have hres : try_reserve_fails n2 = true := by
      unfold try_reserve_fails
      exact decide_eq_true hr
    rw [load_header _ _ hn2]
    unfold loadAfterHeader
    rw [hres]
    simp only [if_true]
  · intro p rest2 hdropcons hne
    have hple : p ∈ m := List.drop_subset n2 m (hdropcons ▸ List.mem_cons_self p rest2)
    have hlt : n2 < m.length := by
      by_contra hcon
      push_neg at hcon
      rw [List.drop_eq_nil_of_le hcon] at hdropcons
      cases hdropcons
    have hres : try_reserve_fails n2 = false := by
      unfold try_reserve_fails
      exact decide_eq_false (Nat.not_lt.mpr (le_trans (le_of_lt hlt) hlen))
    rw [load_header _ _ (Nat.lt_trans hlt hlen64)]
    unfold loadAfterHeader
    rw [hres]
    simp only [Bool.false_eq_true, if_false]
    have hsplit : encRecords m =
        encRecords (m.take n2) ++ encRecords (m.drop n2) :=
      (congrArg encRecords (List.take_append_drop n2 m).symm).trans
        (encRecords_append _ _)
    rw [hsplit, List.append_assoc]
    have hcount : (m.take n2).length = n2 := by
      rw [List.length_take]
      omega
    have hrecs := loadRecords_spec (m.take n2) 0
      (encRecords (m.drop n2) ++ le64 (saveHash m))
      ((Fnv1A.new.update_each MAGIC_BYTES).update_each (le64 n2)) []
      (fun q hq => hvalid q (List.take_subset _ _ hq))
    rw [Nat.add_zero, hcount] at hrecs
    rw [hrecs]
    simp only [loadRecords]
    rw [hdropcons, encRecords_cons]
    have hshape : encUser p ++ encRecords rest2 ++ le64 (saveHash m) =
        le64 p.1 ++ (le64 p.2.messages ++ le64 p.2.last_message_at ++
          (encRecords rest2 ++ le64 (saveHash m))) := by
      simp [encUser, SaveUser.to_raw, List.append_assoc]
    rw [hshape, readExact_append 8 (le64 p.1) _ (le64_length _)]
    have hp1 : fromLeBytes (le64 p.1) = p.1 :=
      fromLeBytes_le64 _ (hvalid p hple).2.1
    simp [hp1, hne]

set_option maxRecDepth 4000 in
/-- Witness for the amended C3: on the saved one-record stream, inflating
the declared entry count from 1 to 2 makes `load` fail with the
unexpected-end-of-data error. -/
theorem C3_witness :
    load (([133, 30, 68, 185, 166, 88, 143, 127, 1, 0, 0, 0, 0, 0, 0, 0,
        10, 0, 0, 0, 0, 0, 0, 0, 128, 0, 0, 0, 0, 0, 0, 0,
        63, 174, 3, 0, 0, 0, 0, 0, 204, 50, 125, 69, 60, 25, 223, 95] :
          List Nat).take 8 ++ le64 2 ++
      ([133, 30, 68, 185, 166, 88, 143, 127, 1, 0, 0, 0, 0, 0, 0, 0,
        10, 0, 0, 0, 0, 0, 0, 0, 128, 0, 0, 0, 0, 0, 0, 0,
        63, 174, 3, 0, 0, 0, 0, 0, 204, 50, 125, 69, 60, 25, 223, 95] :
          List Nat).drop 16) = .error .unexpectedEof :=
  (C3_length_tampering [(10, ⟨128, 241215⟩)]
    [133, 30, 68, 185, 166, 88, 143, 127, 1, 0, 0, 0, 0, 0, 0, 0,
      10, 0, 0, 0, 0, 0, 0, 0, 128, 0, 0, 0, 0, 0, 0, 0,
      63, 174, 3, 0, 0, 0, 0, 0, 204, 50, 125, 69, 60, 25, 223, 95] 2
    (by decide) (by decide) (by rfl)).1 (by decide) (by decide)
